import Mathlib

/-!
# cameraxtension.cpp: the two native bindings of `GlNativeBinding`

A shallow embedding of `src/main/cpp/cameraxtension.cpp`.

* C `int` / JNI `jint` values are mathematical integers kept in the signed
  32-bit range by `wrap32` (two's-complement wrap-around).
* `jbyte` array elements are integers (`-128 .. 127` for a real array); the
  conversion to `unsigned char` is `toUChar`.
* A native buffer is a `List Int`; an access outside the buffer, which is
  undefined behaviour in the source, is the fault `Fault.outOfBounds`.
-/

namespace CameraXtension

/-! ## Machine integers -/

/-- Value of an integer after conversion to a signed 32-bit `int`
(two's-complement wrap-around). -/
def wrap32 (x : Int) : Int := (x + 2147483648) % 4294967296 - 2147483648

/-- Conversion of a `jbyte` to `unsigned char`: the value modulo 256. -/
def toUChar (b : Int) : Nat := (b % 256).toNat

/-- The 32-bit pattern of a `jint`, as a number below `2^32`. -/
def bits32 (v : Int) : Nat := (v % 4294967296).toNat

/-- Left shift `x << k` on 32-bit patterns. -/
def shl32 (x k : Nat) : Nat := (x <<< k) % 4294967296

/-- The right-hand side of line 30,
`(alpha << 24) | (red << 16) | (green << 8) | blue`, as the `jint` that is
stored. -/
def packArgb (red green blue alpha : Nat) : Int :=
  wrap32 ((shl32 alpha 24 ||| shl32 red 16 ||| shl32 green 8 ||| blue : Nat) : Int)

/-! ## Native memory -/

/-- The ways a run of the embedding can fail to return normally. -/
inductive Fault where
  /-- A read or write through a native pointer outside its buffer. -/
  | outOfBounds
  /-- The iteration budget handed to `packLoop` ran out before the loop
  condition became false. -/
  | outOfFuel
  deriving DecidableEq

/-- Read `p[idx]`. -/
def load (p : List Int) (idx : Int) : Except Fault Int :=
  if 0 ≤ idx ∧ idx < p.length then .ok (p.getD idx.toNat 0) else .error .outOfBounds

/-- Write `p[idx] = v`. -/
def store (p : List Int) (idx : Int) (v : Int) : Except Fault (List Int) :=
  if 0 ≤ idx ∧ idx < p.length then .ok (p.set idx.toNat v) else .error .outOfBounds

/-- The local variables of `rgbaToPackedArgb` that the loop uses. -/
structure Locals where
  inputPtr : List Int
  outputPtr : List Int
  dataIndex : Int
  i : Int
  deriving DecidableEq

/-- Lines 26-30: the body of the `for` loop. -/
def loopBody (s : Locals) : Except Fault Locals := do
  let red := toUChar (← load s.inputPtr s.dataIndex)
  let s := { s with dataIndex := wrap32 (s.dataIndex + 1) }
  let green := toUChar (← load s.inputPtr s.dataIndex)
  let s := { s with dataIndex := wrap32 (s.dataIndex + 1) }
  let blue := toUChar (← load s.inputPtr s.dataIndex)
  let s := { s with dataIndex := wrap32 (s.dataIndex + 1) }
  let alpha := toUChar (← load s.inputPtr s.dataIndex)
  let s := { s with dataIndex := wrap32 (s.dataIndex + 1) }
  let outputPtr ← store s.outputPtr s.i (packArgb red green blue alpha)
  pure { s with outputPtr := outputPtr }

/-- Line 25: `for (...; i < width * height; ++i)` around `loopBody`, run for at
most `fuel` iterations. -/
def packLoop (width height : Int) : Nat → Locals → Except Fault Locals
  | 0, s => if s.i < wrap32 (width * height) then .error .outOfFuel else .ok s
  | fuel + 1, s =>
    if s.i < wrap32 (width * height) then do
      let s ← loopBody s
      packLoop width height fuel { s with i := wrap32 (s.i + 1) }
    else .ok s

/-! ## The JNI environment -/

/-- The JNI array functions the source calls. -/
inductive JniCall where
  | GetByteArrayElements
  | GetIntArrayElements
  | ReleaseByteArrayElements (mode : Int)
  | ReleaseIntArrayElements (mode : Int)
  deriving DecidableEq

/-- What a call of `rgbaToPackedArgb` sees of the managed side: the contents of
the two arrays and the JNI functions invoked so far, oldest first. -/
structure JniEnv where
  input : List Int
  output : List Int
  calls : List JniCall
  deriving DecidableEq

/-- `env->GetByteArrayElements(input, nullptr)`. -/
def GetByteArrayElements (env : JniEnv) : List Int × JniEnv :=
  (env.input, { env with calls := env.calls ++ [.GetByteArrayElements] })

/-- `env->GetIntArrayElements(output, nullptr)`. -/
def GetIntArrayElements (env : JniEnv) : List Int × JniEnv :=
  (env.output, { env with calls := env.calls ++ [.GetIntArrayElements] })

/-- `env->ReleaseByteArrayElements(input, elems, mode)`: the elements are copied
back unless `mode` is `JNI_ABORT` (2). -/
def ReleaseByteArrayElements (env : JniEnv) (elems : List Int) (mode : Int) : JniEnv :=
  { env with
    input := if mode = 2 then env.input else elems
    calls := env.calls ++ [.ReleaseByteArrayElements mode] }

/-- `env->ReleaseIntArrayElements(output, elems, mode)`: the elements are copied
back unless `mode` is `JNI_ABORT` (2). -/
def ReleaseIntArrayElements (env : JniEnv) (elems : List Int) (mode : Int) : JniEnv :=
  { env with
    output := if mode = 2 then env.output else elems
    calls := env.calls ++ [.ReleaseIntArrayElements mode] }

/-! ## The graphics context -/

/-- Conversion of a `jint` to the unsigned 32-bit type `GLenum`: the value
modulo `2^32`. -/
def toGLenum (v : Int) : Nat := (v % 4294967296).toNat

/-- Where a `glReadPixels` call puts the pixels it reads. -/
inductive PixelDestination where
  /-- Byte `offset` of the data store of the buffer object `buffer`. -/
  | packBuffer (buffer offset : Nat)
  /-- Client memory at `address`. -/
  | clientMemory (address : Nat)
  deriving DecidableEq

/-- One call of the graphics primitive `glReadPixels` as the graphics library
receives it: `x, y` of type `GLint`, `width, height` of type `GLsizei` (both
`int`), `format, type` of the unsigned type `GLenum`, the pointer `pixels` (0 is
the null pointer), and the destination the library resolved for it. -/
structure GlReadPixelsCall where
  x : Int
  y : Int
  width : Int
  height : Int
  format : Nat
  type : Nat
  pixels : Nat
  destination : PixelDestination
  deriving DecidableEq

/-- The graphics context of the calling thread: the buffer object the caller has
bound for pixel-transfer output, if any, and the `glReadPixels` calls issued so
far, oldest first. -/
structure GlContext where
  pixelPackBuffer : Option Nat
  readPixelsCalls : List GlReadPixelsCall
  deriving DecidableEq

/-- Modelled from the spec: the graphics primitive `glReadPixels`, declared in
`GLES3/gl3.h`, which is not a file of the repository. It copies the requested
rectangle into the buffer the caller has bound for pixel-transfer output, the
pointer argument being the byte offset into that buffer; without such a binding
the pointer is an address of client memory. The copy is recorded as a call with
its resolved destination; the binding is left as it is and nothing is
returned. -/
def glReadPixels (x y width height : Int) (format type : Nat) (pixels : Nat)
    (gl : GlContext) : GlContext :=
  { gl with
    readPixelsCalls := gl.readPixelsCalls ++
      [{ x := x, y := y, width := width, height := height, format := format, type := type,
         pixels := pixels,
         destination :=
           match gl.pixelPackBuffer with
           | some buffer => .packBuffer buffer pixels
           | none => .clientMemory pixels }] }

end CameraXtension

namespace Java_com_androidxtensions_cameraxtension_gl_GlNativeBinding

open CameraXtension

/-- Lines 4-12: the six `jint` parameters are handed to `glReadPixels`, `format`
and `type` being converted to `GLenum`, with `nullptr` as the pixels pointer. -/
def readPixelsToBuffer (x y width height format type : Int) (gl : GlContext) : GlContext :=
  glReadPixels x y width height (toGLenum format) (toGLenum type) 0 gl

/-- Lines 14-35. The loop is given `width * height` iterations of fuel, which is
the number of times its condition can hold. -/
def rgbaToPackedArgb (width height : Int) (env : JniEnv) : Except Fault JniEnv := do
  let (inputPtr, env) := GetByteArrayElements env
  let (outputPtr, env) := GetIntArrayElements env
  let s ← packLoop width height (wrap32 (width * height)).toNat
    { inputPtr := inputPtr, outputPtr := outputPtr, dataIndex := 0, i := 0 }
  let env := ReleaseByteArrayElements env s.inputPtr 0
  let env := ReleaseIntArrayElements env s.outputPtr 0
  pure env

end Java_com_androidxtensions_cameraxtension_gl_GlNativeBinding

open CameraXtension
open Java_com_androidxtensions_cameraxtension_gl_GlNativeBinding

/-! ## Specification-side helpers -/

namespace CameraXtension

/-- The word `rgbaToPackedArgb` computes for pixel `k` of the source `src`. -/
def pixelWord (src : List Int) (k : Nat) : Int :=
  packArgb (toUChar (src.getD (4 * k) 0)) (toUChar (src.getD (4 * k + 1) 0))
    (toUChar (src.getD (4 * k + 2) 0)) (toUChar (src.getD (4 * k + 3) 0))

/-- The destination after pixels `k, k+1, ..., k+m-1` of `src` have been packed
into `out`, in that order. -/
def packedFrom (src : List Int) : Nat → Nat → List Int → List Int
  | _, 0, out => out
  | k, m + 1, out => packedFrom src (k + 1) m (out.set k (pixelWord src k))

/-- The unsigned value (0..255) of the source byte at offset `j`. -/
def srcByte (src : List Int) (j : Nat) : Nat := toUChar (src.getD j 0)

/-- The number of iterations the loop of a call makes: the 32-bit product
`width * height` when it is positive, zero otherwise. -/
def pixelCount (width height : Int) : Nat := (wrap32 (width * height)).toNat

/-- The locals after `k` iterations of the loop (body, then `++i`) from `s`. -/
def iterations : Nat → Locals → Except Fault Locals
  | 0, s => .ok s
  | k + 1, s => do
    let s ← loopBody s
    iterations k { s with i := wrap32 (s.i + 1) }

/-- Lowest bit of the field of channel `c` in a packed word; channels are
numbered by their offset in a source pixel: 0 red, 1 green, 2 blue, 3 alpha. -/
def channelShift (c : Nat) : Nat :=
  if c = 0 then 16 else if c = 1 then 8 else if c = 2 then 0 else 24

/-- The JNI functions one call of `rgbaToPackedArgb` invokes, in order. -/
def callsOfPack : List JniCall :=
  [.GetByteArrayElements, .GetIntArrayElements, .ReleaseByteArrayElements 0,
   .ReleaseIntArrayElements 0]

/-- Acquisitions of the source array's elements that a sequence of JNI calls
leaves without a release: each `GetByteArrayElements` counts `+1`, each
`ReleaseByteArrayElements` counts `-1`. -/
def outstandingInput : List JniCall → Int
  | [] => 0
  | .GetByteArrayElements :: cs => 1 + outstandingInput cs
  | .ReleaseByteArrayElements _ :: cs => -1 + outstandingInput cs
  | .GetIntArrayElements :: cs => outstandingInput cs
  | .ReleaseIntArrayElements _ :: cs => outstandingInput cs

/-- Acquisitions of the destination array's elements that a sequence of JNI
calls leaves without a release: each `GetIntArrayElements` counts `+1`, each
`ReleaseIntArrayElements` counts `-1`. -/
def outstandingOutput : List JniCall → Int
  | [] => 0
  | .GetIntArrayElements :: cs => 1 + outstandingOutput cs
  | .ReleaseIntArrayElements _ :: cs => -1 + outstandingOutput cs
  | .GetByteArrayElements :: cs => outstandingOutput cs
  | .ReleaseByteArrayElements _ :: cs => outstandingOutput cs

/-- The number `A * 2^24 + R * 2^16 + G * 2^8 + B` of four channel values. -/
def argbValue (r g b a : Nat) : Int :=
  (a : Int) * 16777216 + (r : Int) * 65536 + (g : Int) * 256 + (b : Int)

/-- The locals with which the loop of a call on `env` starts (line 24 and the
initialiser of line 25, after the two acquisitions of lines 21-22). -/
def initialLocals (env : JniEnv) : Locals :=
  { inputPtr := (GetByteArrayElements env).1, outputPtr := (GetIntArrayElements env).1,
    dataIndex := 0, i := 0 }

end CameraXtension

/-! ## Lemmas on the machine model -/

namespace CameraXtension

theorem wrap32_id (x : Int) (h1 : -2147483648 ≤ x) (h2 : x < 2147483648) :
    wrap32 x = x := by
  unfold wrap32; omega

theorem wrap32_range (x : Int) : -2147483648 ≤ wrap32 x ∧ wrap32 x < 2147483648 := by
  unfold wrap32; omega

theorem load_nat (p : List Int) (j : Nat) (h : j < p.length) :
    load p (j : Int) = .ok (p.getD j 0) := by
  simp [load, h]

theorem load_oob (p : List Int) (idx : Int) (h : idx < 0 ∨ (p.length : Int) ≤ idx) :
    load p idx = .error .outOfBounds := by
  unfold load
  rw [if_neg]
  omega

theorem store_nat (p : List Int) (j : Nat) (v : Int) (h : j < p.length) :
    store p (j : Int) v = .ok (p.set j v) := by
  simp [store, h]

theorem store_oob (p : List Int) (idx : Int) (v : Int)
    (h : idx < 0 ∨ (p.length : Int) ≤ idx) :
    store p idx v = .error .outOfBounds := by
  unfold store
  rw [if_neg]
  omega

end CameraXtension

namespace CameraXtension

/-- One iteration whose four reads start at `4 * k` and whose write goes to `k`:
it succeeds exactly when all five accesses are inside their buffers. -/
theorem loopBody_at (inp out : List Int) (k : Nat) (hk : 4 * k + 4 ≤ 2147483648) :
    loopBody { inputPtr := inp, outputPtr := out, dataIndex := ((4 * k : Nat) : Int),
               i := (k : Int) } =
      if 4 * k + 4 ≤ inp.length ∧ k < out.length then
        .ok { inputPtr := inp, outputPtr := out.set k (pixelWord inp k),
              dataIndex := wrap32 (((4 * k + 4 : Nat) : Int)), i := (k : Int) }
      else .error .outOfBounds := by
  have e1 : wrap32 (((4 * k : Nat) : Int) + 1) = ((4 * k + 1 : Nat) : Int) := by
    rw [wrap32_id] <;> omega
  have e2 : wrap32 (((4 * k + 1 : Nat) : Int) + 1) = ((4 * k + 2 : Nat) : Int) := by
    rw [wrap32_id] <;> omega
  have e3 : wrap32 (((4 * k + 2 : Nat) : Int) + 1) = ((4 * k + 3 : Nat) : Int) := by
    rw [wrap32_id] <;> omega
  have e4 : ((4 * k + 3 : Nat) : Int) + 1 = ((4 * k + 4 : Nat) : Int) := by omega
  unfold loopBody
  simp only [e1, e2, e3, e4]
  by_cases h0 : 4 * k < inp.length
  · rw [load_nat inp _ h0]
    by_cases h1 : 4 * k + 1 < inp.length
    · rw [load_nat inp _ h1]
      by_cases h2 : 4 * k + 2 < inp.length
      · rw [load_nat inp _ h2]
        by_cases h3 : 4 * k + 3 < inp.length
        · rw [load_nat inp _ h3]
          simp only [bind, Except.bind]
          by_cases h4 : k < out.length
          · rw [store_nat out _ _ h4, if_pos ⟨by omega, h4⟩]
            rfl
          · rw [store_oob out _ _ (by omega), if_neg (by omega)]
        · rw [load_oob inp _ (by omega), if_neg (by omega)]
          rfl
      · rw [load_oob inp _ (by omega), if_neg (by omega)]
        rfl
    · rw [load_oob inp _ (by omega), if_neg (by omega)]
      rfl
  · rw [load_oob inp _ (by omega), if_neg (by omega)]
    rfl

/-- An iteration entered with a negative read cursor faults at its first read. -/
theorem loopBody_neg (s : Locals) (h : s.dataIndex < 0) :
    loopBody s = .error .outOfBounds := by
  unfold loopBody
  rw [load_oob _ _ (Or.inl h)]
  rfl

theorem packedFrom_length (src : List Int) :
    ∀ (m k : Nat) (out : List Int), (packedFrom src k m out).length = out.length := by
  intro m
  induction m with
  | zero => intro k out; rfl
  | succ m ih => intro k out; simp [packedFrom, ih]

/-- The loop from iteration `k` on, `m` iterations before its bound `n`, when the
accesses of the iterations before `k` were inside the buffers: it returns
normally exactly when the accesses of all `n` iterations are inside the buffers
and the read cursor stays a valid `int` index, and faults otherwise. -/
theorem packLoop_from (w h : Int) (n : Nat) (hn : wrap32 (w * h) = (n : Int))
    (inp : List Int) :
    ∀ (m k fuel : Nat) (out : List Int), k + m = n → m ≤ fuel →
      4 * k ≤ inp.length → k ≤ out.length → 4 * k ≤ 2147483648 →
      packLoop w h fuel { inputPtr := inp, outputPtr := out,
                          dataIndex := wrap32 (((4 * k : Nat) : Int)), i := (k : Int) } =
        if 4 * n ≤ inp.length ∧ n ≤ out.length ∧ 4 * n ≤ 2147483648 then
          .ok { inputPtr := inp, outputPtr := packedFrom inp k m out,
                dataIndex := wrap32 (((4 * n : Nat) : Int)), i := (n : Int) }
        else .error .outOfBounds := by
  have hnr := wrap32_range (w * h)
  rw [hn] at hnr
  intro m
  induction m with
  | zero =>
    intro k fuel out hkm _ h1 h2 h3
    have hk : k = n := by omega
    subst hk
    rw [if_pos ⟨h1, h2, h3⟩]
    cases fuel <;> simp [packLoop, hn, packedFrom]
  | succ m ih =>
    intro k fuel out hkm hf h1 h2 h3
    obtain ⟨f, rfl⟩ : ∃ f, fuel = f + 1 := ⟨fuel - 1, by omega⟩
    have hlt : ((k : Nat) : Int) < (n : Int) := by omega
    unfold packLoop
    simp only [hn, hlt, if_true]
    by_cases hk : 4 * k + 4 ≤ 2147483648
    · rw [wrap32_id _ (by omega) (by omega), loopBody_at inp out k hk]
      by_cases hb : 4 * k + 4 ≤ inp.length ∧ k < out.length
      · rw [if_pos hb]
        simp only [bind, Except.bind]
        have e : wrap32 ((k : Int) + 1) = ((k + 1 : Nat) : Int) := by
          rw [wrap32_id] <;> omega
        rw [e]
        have := ih (k + 1) f (out.set k (pixelWord inp k)) (by omega) (by omega)
          (by omega) (by rw [List.length_set]; omega) (by omega)
        rw [show 4 * (k + 1) = 4 * k + 4 by ring] at this
        rw [this, List.length_set]
        rfl
      · rw [if_neg hb, if_neg (by omega)]
        rfl
    · have e : wrap32 (((4 * k : Nat) : Int)) = -2147483648 := by
        unfold wrap32; omega
      rw [loopBody_neg _ (by simp only [e]; omega), if_neg (by omega)]
      rfl

/-- Element `j` of the destination after pixels `k .. k+m-1` were packed. -/
theorem packedFrom_getElem? (src : List Int) :
    ∀ (m k : Nat) (out : List Int) (j : Nat),
      (packedFrom src k m out)[j]? =
        if k ≤ j ∧ j < k + m ∧ j < out.length then some (pixelWord src j) else out[j]? := by
  intro m
  induction m with
  | zero =>
    intro k out j
    rw [if_neg (by omega)]
    rfl
  | succ m ih =>
    intro k out j
    rw [packedFrom, ih, List.length_set, List.getElem?_set]
    by_cases hkj : k = j
    · subst hkj
      by_cases hl : k < out.length
      · rw [if_neg (by omega), if_pos rfl, if_pos hl, if_pos ⟨by omega, by omega, hl⟩]
      · rw [if_neg (by omega), if_pos rfl, if_neg hl, if_neg (by omega)]
        exact (List.getElem?_eq_none (by omega)).symm
    · rw [if_neg hkj]
      by_cases hc : k + 1 ≤ j ∧ j < k + 1 + m ∧ j < out.length
      · rw [if_pos hc, if_pos ⟨by omega, by omega, hc.2.2⟩]
      · rw [if_neg hc, if_neg (by omega)]

theorem toUChar_lt (b : Int) : toUChar b < 256 := by
  unfold toUChar; omega

theorem toUChar_cast (b : Int) : ((toUChar b : Nat) : Int) = b % 256 := by
  unfold toUChar; omega

/-- On four channel values below 256 the shifts and ors of line 30 place the
channels side by side. -/
theorem or_channels_eq_add (r g b a : Nat) (hr : r < 256) (hg : g < 256) (hb : b < 256) :
    a <<< 24 ||| r <<< 16 ||| g <<< 8 ||| b = a * 16777216 + r * 65536 + g * 256 + b := by
  have h1 : g <<< 8 ||| b = g * 256 + b := by
    have := Nat.mul_add_lt_is_or (show b < 2 ^ 8 by omega) g
    rw [Nat.shiftLeft_eq, Nat.mul_comm g]; omega
  have h2 : r <<< 16 ||| (g * 256 + b) = r * 65536 + (g * 256 + b) := by
    have := Nat.mul_add_lt_is_or (show g * 256 + b < 2 ^ 16 by omega) r
    rw [Nat.shiftLeft_eq, Nat.mul_comm r]; omega
  have h3 : a <<< 24 ||| (r * 65536 + (g * 256 + b)) =
      a * 16777216 + (r * 65536 + (g * 256 + b)) := by
    have := Nat.mul_add_lt_is_or (show r * 65536 + (g * 256 + b) < 2 ^ 24 by omega) a
    rw [Nat.shiftLeft_eq, Nat.mul_comm a]; omega
  rw [Nat.or_assoc, Nat.or_assoc, h1, h2, h3]
  omega

/-- The 32-bit pattern of the word stored by line 30. -/
theorem bits32_packArgb (r g b a : Nat) (hr : r < 256) (hg : g < 256) (hb : b < 256)
    (ha : a < 256) :
    bits32 (packArgb r g b a) = a <<< 24 ||| r <<< 16 ||| g <<< 8 ||| b := by
  have hs : ∀ x k : Nat, x * 2 ^ k < 4294967296 → shl32 x k = x <<< k := by
    intro x k hx
    unfold shl32
    rw [Nat.shiftLeft_eq]
    exact Nat.mod_eq_of_lt hx
  unfold packArgb
  rw [hs a 24 (by omega), hs r 16 (by omega), hs g 8 (by omega)]
  have hlt : a <<< 24 ||| r <<< 16 ||| g <<< 8 ||| b < 4294967296 := by
    rw [or_channels_eq_add r g b a hr hg hb]; omega
  generalize a <<< 24 ||| r <<< 16 ||| g <<< 8 ||| b = x at hlt
  unfold bits32 wrap32
  omega

end CameraXtension

/-! ## The whole call -/

/-- A call whose 32-bit loop bound is the natural number `n`. -/
theorem rgbaToPackedArgb_of_bound (w h : Int) (env : JniEnv) (n : Nat)
    (hn : wrap32 (w * h) = (n : Int)) :
    rgbaToPackedArgb w h env =
      if 4 * n ≤ env.input.length ∧ n ≤ env.output.length ∧ 4 * n ≤ 2147483648 then
        .ok { input := env.input, output := packedFrom env.input 0 n env.output,
              calls := env.calls ++ callsOfPack }
      else .error .outOfBounds := by
  have key := packLoop_from w h n hn env.input n 0 n env.output (by omega) (by omega)
    (by omega) (by omega) (by omega)
  have e0 : wrap32 (((4 * 0 : Nat) : Int)) = 0 := by decide
  have e1 : ((0 : Nat) : Int) = 0 := rfl
  rw [e0, e1] at key
  unfold rgbaToPackedArgb
  simp only [GetByteArrayElements, GetIntArrayElements, hn, Int.toNat_ofNat, key]
  split
  · simp [bind, Except.bind, pure, Except.pure, ReleaseByteArrayElements,
      ReleaseIntArrayElements, callsOfPack]
  · rfl

/-- A call whose 32-bit loop bound is zero or negative. -/
theorem rgbaToPackedArgb_of_nonpos (w h : Int) (env : JniEnv) (hn : wrap32 (w * h) ≤ 0) :
    rgbaToPackedArgb w h env =
      .ok { input := env.input, output := env.output, calls := env.calls ++ callsOfPack } := by
  have e : (wrap32 (w * h)).toNat = 0 := by omega
  unfold rgbaToPackedArgb
  simp only [GetByteArrayElements, GetIntArrayElements, e, packLoop]
  rw [if_neg (by omega)]
  simp [bind, Except.bind, pure, Except.pure, ReleaseByteArrayElements,
    ReleaseIntArrayElements, callsOfPack]

/-- Every call: it returns normally exactly when the accesses of all
`pixelCount width height` iterations are inside the buffers, and then only the
first `pixelCount width height` destination words have been replaced. -/
theorem rgbaToPackedArgb_eq (w h : Int) (env : JniEnv) :
    rgbaToPackedArgb w h env =
      if 4 * pixelCount w h ≤ env.input.length ∧ pixelCount w h ≤ env.output.length ∧
          4 * pixelCount w h ≤ 2147483648 then
        .ok { input := env.input,
              output := packedFrom env.input 0 (pixelCount w h) env.output,
              calls := env.calls ++ callsOfPack }
      else .error .outOfBounds := by
  by_cases hn : wrap32 (w * h) ≤ 0
  · have e : pixelCount w h = 0 := by unfold pixelCount; omega
    rw [rgbaToPackedArgb_of_nonpos w h env hn, e, if_pos ⟨by omega, by omega, by omega⟩]
    rfl
  · have e : wrap32 (w * h) = ((pixelCount w h : Nat) : Int) := by
      unfold pixelCount; omega
    exact rgbaToPackedArgb_of_bound w h env _ e

/-- The loop bound of a call with a non-negative product that fits an `int`. -/
theorem pixelCount_of_eq (w h : Int) (n : Nat) (hwh : w * h = (n : Int))
    (hn : n < 2147483648) : pixelCount w h = n := by
  unfold pixelCount
  rw [hwh, wrap32_id _ (by omega) (by omega)]
  rfl

/-- A call on buffers that hold at least the `n = width * height` pixels. -/
theorem rgbaToPackedArgb_fits (w h : Int) (env : JniEnv) (n : Nat)
    (hwh : w * h = (n : Int)) (hsrc : 4 * n ≤ env.input.length)
    (hdst : n ≤ env.output.length) (hlen : env.input.length < 2147483648) :
    rgbaToPackedArgb w h env =
      .ok { input := env.input, output := packedFrom env.input 0 n env.output,
            calls := env.calls ++ callsOfPack } := by
  rw [rgbaToPackedArgb_eq, pixelCount_of_eq w h n hwh (by omega),
    if_pos ⟨hsrc, hdst, by omega⟩]

/-- The 32-bit pattern of the word computed for pixel `k`. -/
theorem bits32_pixelWord (src : List Int) (k : Nat) :
    bits32 (pixelWord src k) =
      srcByte src (4 * k + 3) <<< 24 ||| srcByte src (4 * k) <<< 16 |||
        srcByte src (4 * k + 1) <<< 8 ||| srcByte src (4 * k + 2) := by
  unfold pixelWord srcByte
  exact bits32_packArgb _ _ _ _ (toUChar_lt _) (toUChar_lt _) (toUChar_lt _) (toUChar_lt _)

/-! ## Claims -/

/-- C2 (scenario): with `width = 2`, `height = 1` and the source bytes
`10,20,30,40, 200,150,100,255` (given as the signed `jbyte` values
`-56,-106,100,-1` for the last pixel, or as the unsigned values themselves), a
destination of two words of any previous content becomes
`[0x280A141E, 0xFFC89664]` as 32-bit patterns. -/
theorem C2_scenario (d0 d1 : Int) (calls : List JniCall) :
    (∃ env', rgbaToPackedArgb 2 1 ⟨[10, 20, 30, 40, -56, -106, 100, -1], [d0, d1], calls⟩
        = .ok env' ∧ env'.output.map bits32 = [0x280A141E, 0xFFC89664]) ∧
    (∃ env', rgbaToPackedArgb 2 1 ⟨[10, 20, 30, 40, 200, 150, 100, 255], [d0, d1], calls⟩
        = .ok env' ∧ env'.output.map bits32 = [0x280A141E, 0xFFC89664]) := by
  constructor
  · refine ⟨_, rgbaToPackedArgb_fits 2 1 _ 2 (by decide) (Nat.le_refl 8) (Nat.le_refl 2)
      (by simp), ?_⟩
    simp only [packedFrom, List.set, List.map]
    decide
  · refine ⟨_, rgbaToPackedArgb_fits 2 1 _ 2 (by decide) (Nat.le_refl 8) (Nat.le_refl 2)
      (by simp), ?_⟩
    simp only [packedFrom, List.set, List.map]
    decide

/-- The unsigned value of a source byte that is present at offset `j`. -/
theorem srcByte_of_getElem? (src : List Int) (j : Nat) (v : Int) (h : src[j]? = some v) :
    ((srcByte src j : Nat) : Int) = v % 256 := by
  unfold srcByte
  rw [toUChar_cast, List.getD_eq_getElem?_getD, h]
  rfl

/-- C3 (unsigned-byte handling, P2): a one-pixel source of four `0xFF` bytes
(each `-1` as a `jbyte`) gives the word `0xFFFFFFFF`; and in every call on
buffers of the stated sizes, for every pixel, the source bytes `r, g, b, a`
(signed `jbyte` values) contribute exactly `r mod 256`, `g mod 256`,
`b mod 256`, `a mod 256` to the fields at bits 16-23, 8-15, 0-7, 24-31 of the
word: the word is the sum of the four values placed in their fields, with nothing
added outside them. -/
theorem C3_unsigned_bytes :
    (∀ (d : Int) (calls : List JniCall),
      ∃ env', rgbaToPackedArgb 1 1 ⟨[-1, -1, -1, -1], [d], calls⟩ = .ok env' ∧
        env'.output.map bits32 = [0xFFFFFFFF]) ∧
    (∀ (n : Nat) (width height : Int) (env : JniEnv),
      width * height = (n : Int) → env.input.length = 4 * n → env.output.length = n →
      env.input.length < 2147483648 →
      ∃ env', rgbaToPackedArgb width height env = .ok env' ∧
        ∀ (i : Nat) (r g b a : Int), i < n →
          env.input[4 * i]? = some r → env.input[4 * i + 1]? = some g →
          env.input[4 * i + 2]? = some b → env.input[4 * i + 3]? = some a →
          ∃ word, env'.output[i]? = some word ∧
            ((bits32 word : Nat) : Int) =
              a % 256 * 16777216 + r % 256 * 65536 + g % 256 * 256 + b % 256 ∧
            ((bits32 word / 16777216 % 256 : Nat) : Int) = a % 256 ∧
            ((bits32 word / 65536 % 256 : Nat) : Int) = r % 256 ∧
            ((bits32 word / 256 % 256 : Nat) : Int) = g % 256 ∧
            ((bits32 word % 256 : Nat) : Int) = b % 256) := by
  constructor
  · intro d calls
    refine ⟨_, rgbaToPackedArgb_fits 1 1 _ 1 (by decide) (Nat.le_refl 4) (Nat.le_refl 1)
      (by simp), ?_⟩
    simp only [packedFrom, List.set, List.map]
    decide
  · intro n width height env hwh hsrc hdst hlen
    refine ⟨_, rgbaToPackedArgb_fits width height env n hwh (by omega) (by omega) hlen, ?_⟩
    intro i r g b a hi hr hg hb ha
    refine ⟨pixelWord env.input i, ?_, ?_⟩
    · simp only [packedFrom_getElem?]
      rw [if_pos ⟨by omega, by omega, by omega⟩]
    · have er := srcByte_of_getElem? _ _ _ hr
      have eg := srcByte_of_getElem? _ _ _ hg
      have eb := srcByte_of_getElem? _ _ _ hb
      have ea := srcByte_of_getElem? _ _ _ ha
      have lr : srcByte env.input (4 * i) < 256 := toUChar_lt _
      have lg : srcByte env.input (4 * i + 1) < 256 := toUChar_lt _
      have lb : srcByte env.input (4 * i + 2) < 256 := toUChar_lt _
      have la : srcByte env.input (4 * i + 3) < 256 := toUChar_lt _
      rw [bits32_pixelWord, or_channels_eq_add _ _ _ _ lr lg lb]
      generalize srcByte env.input (4 * i) = R at *
      generalize srcByte env.input (4 * i + 1) = G at *
      generalize srcByte env.input (4 * i + 2) = B at *
      generalize srcByte env.input (4 * i + 3) = A at *
      omega

/-- C3 at a one-pixel source of four `0xFF` bytes. -/
theorem C3_unsigned_bytes_witness :
    ∃ env', rgbaToPackedArgb 1 1 ⟨[-1, -1, -1, -1], [0], []⟩ = .ok env' ∧
      ∀ (i : Nat) (r g b a : Int), i < 1 →
        [-1, -1, -1, (-1 : Int)][4 * i]? = some r → [-1, -1, -1, (-1 : Int)][4 * i + 1]? = some g →
        [-1, -1, -1, (-1 : Int)][4 * i + 2]? = some b →
        [-1, -1, -1, (-1 : Int)][4 * i + 3]? = some a →
        ∃ word, env'.output[i]? = some word ∧
          ((bits32 word : Nat) : Int) =
            a % 256 * 16777216 + r % 256 * 65536 + g % 256 * 256 + b % 256 ∧
          ((bits32 word / 16777216 % 256 : Nat) : Int) = a % 256 ∧
          ((bits32 word / 65536 % 256 : Nat) : Int) = r % 256 ∧
          ((bits32 word / 256 % 256 : Nat) : Int) = g % 256 ∧
          ((bits32 word % 256 : Nat) : Int) = b % 256 :=
  C3_unsigned_bytes.2 1 1 1 ⟨[-1, -1, -1, -1], [0], []⟩ (by decide) (by decide) (by decide)
    (by decide)

/-- A channel value shifted to bit `s` has no bit outside `s .. s+7`. -/
theorem field_testBit (x s p : Nat) (hx : x < 256) (hp : ¬ (s ≤ p ∧ p < s + 8)) :
    (x <<< s).testBit p = false := by
  rw [Nat.testBit_shiftLeft]
  by_cases hsp : s ≤ p
  · have h8 : 8 ≤ p - s := by omega
    have hlt : x < 2 ^ (p - s) :=
      Nat.lt_of_lt_of_le (show x < 2 ^ 8 by omega) (Nat.pow_le_pow_right (by decide) h8)
    rw [Nat.testBit_lt_two_pow hlt]
    simp
  · simp [hsp]

/-- Sources that agree at offset `j` have the same unsigned byte there. -/
theorem srcByte_congr (s1 s2 : List Int) (j : Nat) (h : s1[j]? = s2[j]?) :
    srcByte s1 j = srcByte s2 j := by
  unfold srcByte
  rw [List.getD_eq_getElem?_getD, List.getD_eq_getElem?_getD, h]

theorem pixelWord_eq_srcByte (src : List Int) (k : Nat) :
    pixelWord src k =
      packArgb (srcByte src (4 * k)) (srcByte src (4 * k + 1)) (srcByte src (4 * k + 2))
        (srcByte src (4 * k + 3)) := rfl

/-- C4 (channel isolation, P3): for two sources of length `4 * n` that agree
everywhere except possibly at the byte of channel `c` of pixel `k` (offset
`4 * k + c`; `c` is 0 for red, 1 green, 2 blue, 3 alpha), each packed into a
destination of `n` words of any previous content, both calls return normally,
the outputs agree on every word other than word `k`, and the two words `k` agree
on every bit outside the field of the channel (red bits 16-23, green 8-15, blue
0-7, alpha 24-31). -/
theorem C4_channel_isolation (n k c : Nat) (width height : Int) (env1 env2 : JniEnv)
    (hwh : width * height = (n : Int)) (hk : k < n) (hc : c < 4)
    (hsrc1 : env1.input.length = 4 * n) (hsrc2 : env2.input.length = 4 * n)
    (hdst1 : env1.output.length = n) (hdst2 : env2.output.length = n)
    (hlen : 4 * n < 2147483648)
    (hdiff : ∀ j, j ≠ 4 * k + c → env1.input[j]? = env2.input[j]?) :
    ∃ e1 e2, rgbaToPackedArgb width height env1 = .ok e1 ∧
      rgbaToPackedArgb width height env2 = .ok e2 ∧
      (∀ j, j ≠ k → e1.output[j]? = e2.output[j]?) ∧
      ∃ w1 w2, e1.output[k]? = some w1 ∧ e2.output[k]? = some w2 ∧
        ∀ p, ¬ (channelShift c ≤ p ∧ p < channelShift c + 8) →
          (bits32 w1).testBit p = (bits32 w2).testBit p := by
  refine ⟨_, _, rgbaToPackedArgb_fits width height env1 n hwh (by omega) (by omega) (by omega),
    rgbaToPackedArgb_fits width height env2 n hwh (by omega) (by omega) (by omega),
    ?_, pixelWord env1.input k, pixelWord env2.input k, ?_, ?_, ?_⟩
  · intro j hj
    simp only [packedFrom_getElem?]
    by_cases hjn : j < n
    · rw [if_pos ⟨by omega, by omega, by omega⟩, if_pos ⟨by omega, by omega, by omega⟩,
        pixelWord_eq_srcByte, pixelWord_eq_srcByte,
        srcByte_congr _ _ (4 * j) (hdiff _ (by omega)),
        srcByte_congr _ _ (4 * j + 1) (hdiff _ (by omega)),
        srcByte_congr _ _ (4 * j + 2) (hdiff _ (by omega)),
        srcByte_congr _ _ (4 * j + 3) (hdiff _ (by omega))]
    · rw [if_neg (by omega), if_neg (by omega), List.getElem?_eq_none (by omega),
        List.getElem?_eq_none (by omega)]
  · simp only [packedFrom_getElem?]
    rw [if_pos ⟨by omega, by omega, by omega⟩]
  · simp only [packedFrom_getElem?]
    rw [if_pos ⟨by omega, by omega, by omega⟩]
  · intro p hp
    have l1 : ∀ j, srcByte env1.input j < 256 := fun j => toUChar_lt _
    have l2 : ∀ j, srcByte env2.input j < 256 := fun j => toUChar_lt _
    have z1 : srcByte env1.input (4 * k + 2) <<< 0 = srcByte env1.input (4 * k + 2) :=
      Nat.shiftLeft_zero
    have z2 : srcByte env2.input (4 * k + 2) <<< 0 = srcByte env2.input (4 * k + 2) :=
      Nat.shiftLeft_zero
    rw [bits32_pixelWord, bits32_pixelWord]
    simp only [Nat.testBit_or]
    have hc4 : c = 0 ∨ c = 1 ∨ c = 2 ∨ c = 3 := by omega
    rcases hc4 with rfl | rfl | rfl | rfl
    · rw [srcByte_congr _ _ (4 * k + 1) (hdiff _ (by omega)),
        srcByte_congr _ _ (4 * k + 2) (hdiff _ (by omega)),
        srcByte_congr _ _ (4 * k + 3) (hdiff _ (by omega)),
        field_testBit _ 16 p (l1 _) hp, field_testBit _ 16 p (l2 _) hp]
    · rw [srcByte_congr _ _ (4 * k) (hdiff _ (by omega)),
        srcByte_congr _ _ (4 * k + 2) (hdiff _ (by omega)),
        srcByte_congr _ _ (4 * k + 3) (hdiff _ (by omega)),
        field_testBit _ 8 p (l1 _) hp, field_testBit _ 8 p (l2 _) hp]
    · rw [srcByte_congr _ _ (4 * k) (hdiff _ (by omega)),
        srcByte_congr _ _ (4 * k + 1) (hdiff _ (by omega)),
        srcByte_congr _ _ (4 * k + 3) (hdiff _ (by omega)),
        ← z1, ← z2,
        field_testBit _ 0 p (l1 _) hp, field_testBit _ 0 p (l2 _) hp]
    · rw [srcByte_congr _ _ (4 * k) (hdiff _ (by omega)),
        srcByte_congr _ _ (4 * k + 1) (hdiff _ (by omega)),
        srcByte_congr _ _ (4 * k + 2) (hdiff _ (by omega)),
        field_testBit _ 24 p (l1 _) hp, field_testBit _ 24 p (l2 _) hp]

/-- C4 at two three-pixel sources that differ in the green byte of pixel 1,
packed into destinations of different previous content. -/
theorem C4_channel_isolation_witness :
    ∃ e1 e2,
      rgbaToPackedArgb 3 1 ⟨[10, 20, 30, 40, 50, 60, 70, 80, -1, -2, -3, -4], [0, 0, 0], []⟩ =
        .ok e1 ∧
      rgbaToPackedArgb 3 1 ⟨[10, 20, 30, 40, 50, -7, 70, 80, -1, -2, -3, -4], [5, 6, 7], []⟩ =
        .ok e2 ∧
      (∀ j, j ≠ 1 → e1.output[j]? = e2.output[j]?) ∧
      ∃ w1 w2, e1.output[1]? = some w1 ∧ e2.output[1]? = some w2 ∧
        ∀ p, ¬ (channelShift 1 ≤ p ∧ p < channelShift 1 + 8) →
          (bits32 w1).testBit p = (bits32 w2).testBit p :=
  C4_channel_isolation 3 1 1 3 1
    ⟨[10, 20, 30, 40, 50, 60, 70, 80, -1, -2, -3, -4], [0, 0, 0], []⟩
    ⟨[10, 20, 30, 40, 50, -7, 70, 80, -1, -2, -3, -4], [5, 6, 7], []⟩
    (by decide) (by decide) (by decide) (by decide) (by decide) (by decide) (by decide)
    (by decide)
    (by
      intro j hj
      rcases j with _ | _ | _ | _ | _ | _ | _ | _ | _ | _ | _ | _ | j
      · rfl
      · rfl
      · rfl
      · rfl
      · rfl
      · exact absurd rfl hj
      · rfl
      · rfl
      · rfl
      · rfl
      · rfl
      · rfl
      · rfl)

/-- The locals after `m` more iterations from the start of iteration `k`, when
the buffers hold `k + m` pixels and the read cursor stays below `2^31`. -/
theorem iterations_from (inp : List Int) :
    ∀ (m k : Nat) (out : List Int), 4 * (k + m) ≤ inp.length → k + m ≤ out.length →
      4 * (k + m) < 2147483648 →
      iterations m { inputPtr := inp, outputPtr := out, dataIndex := ((4 * k : Nat) : Int),
                     i := (k : Int) } =
        .ok { inputPtr := inp, outputPtr := packedFrom inp k m out,
              dataIndex := ((4 * (k + m) : Nat) : Int), i := ((k + m : Nat) : Int) } := by
  intro m
  induction m with
  | zero => intro k out _ _ _; rfl
  | succ m ih =>
    intro k out h1 h2 h3
    unfold iterations
    rw [loopBody_at inp out k (by omega), if_pos ⟨by omega, by omega⟩]
    simp only [bind, Except.bind]
    have e1 : wrap32 (((4 * k + 4 : Nat) : Int)) = ((4 * (k + 1) : Nat) : Int) := by
      rw [wrap32_id] <;> omega
    have e2 : wrap32 ((k : Int) + 1) = ((k + 1 : Nat) : Int) := by
      rw [wrap32_id] <;> omega
    rw [e1, e2, ih (k + 1) _ (by omega) (by rw [List.length_set]; omega) (by omega)]
    have e3 : k + 1 + m = k + (m + 1) := by omega
    rw [e3]
    rfl

/-- C5 (side effects): for every call that satisfies the preconditions
(`len(source) = 4 * width * height`, a Java array length, and
`len(destination) = width * height`), the call returns normally, the source
after the call is the source before it, and the destination has kept its
length; the environment changes in nothing else but the record of the four JNI
invocations of the call. -/
theorem C5_side_effects (width height : Int) (env : JniEnv)
    (hsrc : (env.input.length : Int) = 4 * (width * height))
    (hdst : (env.output.length : Int) = width * height)
    (hlen : env.input.length < 2147483648) :
    ∃ env', rgbaToPackedArgb width height env = .ok env' ∧
      env'.input = env.input ∧ env'.output.length = env.output.length ∧
      env'.calls = env.calls ++ callsOfPack := by
  refine ⟨_, rgbaToPackedArgb_fits width height env env.output.length hdst.symm (by omega)
    (by omega) hlen, rfl, ?_, rfl⟩
  simp only [packedFrom_length]

/-- C5 at the two-pixel source of the spec's scenario. -/
theorem C5_side_effects_witness :
    ∃ env', rgbaToPackedArgb 2 1 ⟨[10, 20, 30, 40, -56, -106, 100, -1], [7, 7], []⟩ = .ok env' ∧
      env'.input = [10, 20, 30, 40, -56, -106, 100, -1] ∧ env'.output.length = [7, (7 : Int)].length ∧
      env'.calls = [] ++ callsOfPack :=
  C5_side_effects 2 1 ⟨[10, 20, 30, 40, -56, -106, 100, -1], [7, 7], []⟩
    (by decide) (by decide) (by decide)

/-- C6 (index safety): for `width ≥ 0`, `height ≥ 0`, a source of
`4 * width * height` bytes (a Java array length, below `2^31`) and a destination
of `width * height` words: the loop bound `width * height` is not changed by the
conversion to `int`; at the start of every iteration `k < width * height` the
locals are `i = k` and `dataIndex = 4 * k`, the read indices `dataIndex ..
dataIndex + 3` are inside the source, the write index `i` is inside the
destination and `dataIndex + 4` is still an `int`; the loop ends with
`dataIndex = 4 * width * height`; and the call returns normally, so no access
faults. -/
theorem C6_index_safety (width height : Int) (env : JniEnv)
    (hw : 0 ≤ width) (hh : 0 ≤ height)
    (hsrc : (env.input.length : Int) = 4 * (width * height))
    (hdst : (env.output.length : Int) = width * height)
    (hlen : env.input.length < 2147483648) :
    wrap32 (width * height) = width * height ∧
    (∀ k : Nat, (k : Int) < width * height →
      ∃ s, iterations k { inputPtr := env.input, outputPtr := env.output,
                          dataIndex := 0, i := 0 } = .ok s ∧
        s.i = (k : Int) ∧ s.dataIndex = 4 * (k : Int) ∧
        0 ≤ s.dataIndex ∧ s.dataIndex + 3 < (s.inputPtr.length : Int) ∧
        0 ≤ s.i ∧ s.i < (s.outputPtr.length : Int) ∧
        wrap32 (s.dataIndex + 4) = s.dataIndex + 4 ∧ wrap32 (s.i + 1) = s.i + 1) ∧
    (∃ s, packLoop width height (pixelCount width height)
            { inputPtr := env.input, outputPtr := env.output, dataIndex := 0, i := 0 } = .ok s ∧
        s.i = width * height ∧ s.dataIndex = 4 * (width * height)) ∧
    ∃ env', rgbaToPackedArgb width height env = .ok env' := by
  have _ := hw
  have _ := hh
  have hwh : width * height = ((env.output.length : Nat) : Int) := hdst.symm
  have hpc := pixelCount_of_eq width height _ hwh (by omega)
  refine ⟨wrap32_id _ (by omega) (by omega), ?_, ?_, ?_⟩
  · intro k hk
    have key := iterations_from env.input k 0 env.output (by omega) (by omega) (by omega)
    refine ⟨_, key, ?_⟩
    simp only [packedFrom_length]
    refine ⟨by omega, by omega, by omega, by omega, by omega, by omega, ?_, ?_⟩
    · rw [wrap32_id] <;> omega
    · rw [wrap32_id] <;> omega
  · have hn : wrap32 (width * height) = ((env.output.length : Nat) : Int) := by
      rw [wrap32_id _ (by omega) (by omega), hwh]
    have key := packLoop_from width height _ hn env.input env.output.length 0
      env.output.length env.output (by omega) (by omega) (by omega) (by omega) (by omega)
    rw [if_pos ⟨by omega, by omega, by omega⟩] at key
    rw [hpc]
    refine ⟨_, key, by simp only; omega, ?_⟩
    simp only
    rw [wrap32_id] <;> omega
  · exact ⟨_, rgbaToPackedArgb_fits width height env _ hwh (by omega) (by omega) hlen⟩

/-- C6 at the two-pixel source of the spec's scenario. -/
theorem C6_index_safety_witness :
    wrap32 (2 * 1) = 2 * 1 ∧
    (∀ k : Nat, (k : Int) < 2 * 1 →
      ∃ s, iterations k { inputPtr := [10, 20, 30, 40, -56, -106, 100, -1], outputPtr := [0, 0],
                          dataIndex := 0, i := 0 } = .ok s ∧
        s.i = (k : Int) ∧ s.dataIndex = 4 * (k : Int) ∧
        0 ≤ s.dataIndex ∧ s.dataIndex + 3 < (s.inputPtr.length : Int) ∧
        0 ≤ s.i ∧ s.i < (s.outputPtr.length : Int) ∧
        wrap32 (s.dataIndex + 4) = s.dataIndex + 4 ∧ wrap32 (s.i + 1) = s.i + 1) ∧
    (∃ s, packLoop 2 1 (pixelCount 2 1)
            { inputPtr := [10, 20, 30, 40, -56, -106, 100, -1], outputPtr := [0, 0],
              dataIndex := 0, i := 0 } = .ok s ∧
        s.i = 2 * 1 ∧ s.dataIndex = 4 * (2 * 1)) ∧
    ∃ env', rgbaToPackedArgb 2 1 ⟨[10, 20, 30, 40, -56, -106, 100, -1], [0, 0], []⟩ = .ok env' :=
  C6_index_safety 2 1 ⟨[10, 20, 30, 40, -56, -106, 100, -1], [0, 0], []⟩
    (by decide) (by decide) (by decide) (by decide) (by decide)

/-- C7 (zero-size no-op, P4): with `width = 0` or `height = 0` and empty source
and destination, the loop makes no iteration and the call returns normally with
both buffers still empty. -/
theorem C7_zero_size_noop (width height : Int) (calls : List JniCall)
    (hz : width = 0 ∨ height = 0) :
    pixelCount width height = 0 ∧
    packLoop width height (pixelCount width height)
        { inputPtr := [], outputPtr := [], dataIndex := 0, i := 0 } =
      .ok { inputPtr := [], outputPtr := [], dataIndex := 0, i := 0 } ∧
    rgbaToPackedArgb width height ⟨[], [], calls⟩ = .ok ⟨[], [], calls ++ callsOfPack⟩ := by
  have hwh : width * height = 0 := by
    rcases hz with h | h <;> simp [h]
  have hp : pixelCount width height = 0 := by
    unfold pixelCount; rw [hwh]; rfl
  refine ⟨hp, ?_, ?_⟩
  · rw [hp, packLoop, hwh]
    rfl
  · rw [rgbaToPackedArgb_eq, hp]
    rfl

/-- C7 at `width = 0`, `height = 5`. -/
theorem C7_zero_size_noop_witness :
    pixelCount 0 5 = 0 ∧
    packLoop 0 5 (pixelCount 0 5) { inputPtr := [], outputPtr := [], dataIndex := 0, i := 0 } =
      .ok { inputPtr := [], outputPtr := [], dataIndex := 0, i := 0 } ∧
    rgbaToPackedArgb 0 5 ⟨[], [], []⟩ = .ok ⟨[], [], [] ++ callsOfPack⟩ :=
  C7_zero_size_noop 0 5 [] (Or.inl rfl)

/-- C8 as stated fails: with `width = height = 1`, a source of five bytes
(not `4 * 1 * 1`) and a destination of one word, the call returns normally, no
error of any kind is raised, and destination word 0 has been overwritten. -/
theorem C8_counterexample :
    ([1, 2, 3, 4, 5] : List Int).length ≠ 4 * 1 * 1 ∧
    rgbaToPackedArgb 1 1 ⟨[1, 2, 3, 4, 5], [0], []⟩ =
      .ok ⟨[1, 2, 3, 4, 5], [67174915], callsOfPack⟩ ∧
    ([67174915] : List Int) ≠ [0] :=
  ⟨by decide, rfl, by decide⟩

/-- C8, amended: a size mismatch is not checked. For `n = width * height` with
`0 ≤ n < 2^31` and a source array (length below `2^31`) whose length is not
`4 * n`: when the source is longer than `4 * n` and the destination holds at
least `n` words, the call returns normally, the source is unchanged, words
`0 .. n-1` of the destination are the packed first `4 * n` source bytes and every
other destination word is unchanged; when the source is shorter than `4 * n`, the
loop reads outside the source buffer, which is the fault `outOfBounds`. -/
theorem C8_size_mismatch_unchecked (n : Nat) (width height : Int) (env : JniEnv)
    (hwh : width * height = (n : Int)) (hn : n < 2147483648)
    (hmis : env.input.length ≠ 4 * n) (hlen : env.input.length < 2147483648) :
    (4 * n < env.input.length → n ≤ env.output.length →
      ∃ env', rgbaToPackedArgb width height env = .ok env' ∧
        env'.input = env.input ∧ env'.output.length = env.output.length ∧
        (∀ i, i < n → ∃ word, env'.output[i]? = some word ∧
          bits32 word =
            srcByte env.input (4 * i + 3) <<< 24 ||| srcByte env.input (4 * i) <<< 16 |||
              srcByte env.input (4 * i + 1) <<< 8 ||| srcByte env.input (4 * i + 2)) ∧
        (∀ j, n ≤ j → env'.output[j]? = env.output[j]?)) ∧
    (env.input.length < 4 * n → rgbaToPackedArgb width height env = .error .outOfBounds) := by
  have _ := hmis
  constructor
  · intro h1 h2
    refine ⟨_, rgbaToPackedArgb_fits width height env n hwh (by omega) h2 hlen, rfl, ?_, ?_, ?_⟩
    · simp only [packedFrom_length]
    · intro i hi
      refine ⟨pixelWord env.input i, ?_, bits32_pixelWord env.input i⟩
      simp only [packedFrom_getElem?]
      rw [if_pos ⟨by omega, by omega, by omega⟩]
    · intro j hj
      simp only [packedFrom_getElem?]
      rw [if_neg (by omega)]
  · intro h1
    rw [rgbaToPackedArgb_eq, pixelCount_of_eq width height n hwh hn, if_neg (by omega)]

/-- C8, amended, at a one-pixel call on a source of five bytes. -/
theorem C8_size_mismatch_unchecked_witness :
    (4 * 1 < ([1, 2, 3, 4, 5] : List Int).length → 1 ≤ ([0] : List Int).length →
      ∃ env', rgbaToPackedArgb 1 1 ⟨[1, 2, 3, 4, 5], [0], []⟩ = .ok env' ∧
        env'.input = [1, 2, 3, 4, 5] ∧ env'.output.length = ([0] : List Int).length ∧
        (∀ i, i < 1 → ∃ word, env'.output[i]? = some word ∧
          bits32 word =
            srcByte [1, 2, 3, 4, 5] (4 * i + 3) <<< 24 ||| srcByte [1, 2, 3, 4, 5] (4 * i) <<< 16 |||
              srcByte [1, 2, 3, 4, 5] (4 * i + 1) <<< 8 ||| srcByte [1, 2, 3, 4, 5] (4 * i + 2)) ∧
        (∀ j, 1 ≤ j → env'.output[j]? = ([0] : List Int)[j]?)) ∧
    (([1, 2, 3, 4, 5] : List Int).length < 4 * 1 →
      rgbaToPackedArgb 1 1 ⟨[1, 2, 3, 4, 5], [0], []⟩ = .error .outOfBounds) :=
  C8_size_mismatch_unchecked 1 1 1 ⟨[1, 2, 3, 4, 5], [0], []⟩ (by decide) (by decide)
    (by decide) (by decide)

/-- Packing the same pixels into an already packed destination changes nothing. -/
theorem packedFrom_idem (src : List Int) (n : Nat) (out : List Int) :
    packedFrom src 0 n (packedFrom src 0 n out) = packedFrom src 0 n out := by
  apply List.ext_getElem?
  intro j
  simp only [packedFrom_getElem?, packedFrom_length]
  by_cases hc : 0 ≤ j ∧ j < 0 + n ∧ j < out.length
  · rw [if_pos hc, if_pos hc]
  · rw [if_neg hc, if_neg hc]

/-- C9 (determinism / idempotence, P6): two calls with the same width, height,
source and destination contents (whatever JNI calls were made before) end the
same way and, when they return, with the same destination contents; and a second
call on the environment the first call returned, with the same width and height,
returns normally and leaves source and destination as the first call left
them. -/
theorem C9_determinism_idempotence (width height : Int) (e1 e2 : JniEnv)
    (hin : e1.input = e2.input) (hout : e1.output = e2.output) :
    Except.map JniEnv.output (rgbaToPackedArgb width height e1) =
      Except.map JniEnv.output (rgbaToPackedArgb width height e2) ∧
    (∀ r1, rgbaToPackedArgb width height e1 = .ok r1 →
      ∃ r2, rgbaToPackedArgb width height r1 = .ok r2 ∧
        r2.output = r1.output ∧ r2.input = r1.input) := by
  constructor
  · rw [rgbaToPackedArgb_eq, rgbaToPackedArgb_eq, hin, hout]
    split <;> rfl
  · intro r1 h1
    rw [rgbaToPackedArgb_eq] at h1
    split at h1
    · rename_i hc
      injection h1 with h1
      subst h1
      rw [rgbaToPackedArgb_eq]
      simp only [packedFrom_length]
      rw [if_pos hc]
      exact ⟨_, rfl, packedFrom_idem _ _ _, rfl⟩
    · exact absurd h1 (by simp)

/-- C9 at the two-pixel source of the spec's scenario. -/
theorem C9_determinism_idempotence_witness :
    Except.map JniEnv.output
        (rgbaToPackedArgb 2 1 ⟨[10, 20, 30, 40, -56, -106, 100, -1], [0, 0], []⟩) =
      Except.map JniEnv.output
        (rgbaToPackedArgb 2 1 ⟨[10, 20, 30, 40, -56, -106, 100, -1], [0, 0], callsOfPack⟩) ∧
    (∀ r1, rgbaToPackedArgb 2 1 ⟨[10, 20, 30, 40, -56, -106, 100, -1], [0, 0], []⟩ = .ok r1 →
      ∃ r2, rgbaToPackedArgb 2 1 r1 = .ok r2 ∧ r2.output = r1.output ∧ r2.input = r1.input) :=
  C9_determinism_idempotence 2 1 ⟨[10, 20, 30, 40, -56, -106, 100, -1], [0, 0], []⟩
    ⟨[10, 20, 30, 40, -56, -106, 100, -1], [0, 0], callsOfPack⟩ rfl rfl

/-- C10 (no notion of rows and columns): two dimension pairs with equal
products give the same result on the same environment, whether the call returns
or faults. -/
theorem C10_dimensions_only_through_product (w1 h1 w2 h2 : Int) (env : JniEnv)
    (hp : w1 * h1 = w2 * h2) :
    rgbaToPackedArgb w1 h1 env = rgbaToPackedArgb w2 h2 env := by
  rw [rgbaToPackedArgb_eq, rgbaToPackedArgb_eq]
  unfold pixelCount
  rw [hp]

/-- C10 at the dimensions 2x3 and 6x1 on a six-pixel source. -/
theorem C10_dimensions_only_through_product_witness :
    rgbaToPackedArgb 2 3
        ⟨[1, 2, 3, 4, 5, 6, 7, 8, 9, 10, 11, 12, 13, 14, 15, 16, 17, 18, 19, 20, 21, 22, 23, 24],
          [0, 0, 0, 0, 0, 0], []⟩ =
      rgbaToPackedArgb 6 1
        ⟨[1, 2, 3, 4, 5, 6, 7, 8, 9, 10, 11, 12, 13, 14, 15, 16, 17, 18, 19, 20, 21, 22, 23, 24],
          [0, 0, 0, 0, 0, 0], []⟩ :=
  C10_dimensions_only_through_product 2 3 6 1 _ (by decide)


/-! ## Claims on the JNI calls, the readback and the loop -/

theorem outstandingInput_append (a b : List JniCall) :
    outstandingInput (a ++ b) = outstandingInput a + outstandingInput b := by
  induction a with
  | nil => simp [outstandingInput]
  | cons c cs ih => cases c <;> simp [outstandingInput, ih] <;> omega

theorem outstandingOutput_append (a b : List JniCall) :
    outstandingOutput (a ++ b) = outstandingOutput a + outstandingOutput b := by
  induction a with
  | nil => simp [outstandingOutput]
  | cons c cs ih => cases c <;> simp [outstandingOutput, ih] <;> omega

/-- The loop of a call, started on the acquired elements with the fuel the call
gives it: it ends normally exactly when all accesses are inside the buffers. -/
theorem packLoop_initial (w h : Int) (env : JniEnv) :
    packLoop w h (pixelCount w h) (initialLocals env) =
      if 4 * pixelCount w h ≤ env.input.length ∧ pixelCount w h ≤ env.output.length ∧
          4 * pixelCount w h ≤ 2147483648 then
        .ok { inputPtr := env.input,
              outputPtr := packedFrom env.input 0 (pixelCount w h) env.output,
              dataIndex := wrap32 (((4 * pixelCount w h : Nat) : Int)),
              i := (pixelCount w h : Int) }
      else .error .outOfBounds := by
  by_cases hn : wrap32 (w * h) ≤ 0
  · have e : pixelCount w h = 0 := by unfold pixelCount; omega
    rw [e, if_pos ⟨by omega, by omega, by omega⟩, packLoop, if_neg (by simp only [initialLocals]; omega)]
    rfl
  · have e : wrap32 (w * h) = ((pixelCount w h : Nat) : Int) := by
      unfold pixelCount; omega
    exact packLoop_from w h _ e env.input (pixelCount w h) 0 (pixelCount w h) env.output
      (by omega) (by omega) (by omega) (by omega) (by omega)

/-- C11 (scoped buffer access): every call is the two acquisitions, then the
loop on the acquired elements, then the two releases applied to what the loop
left, and there is no other way out of the call. Whenever the call returns, it
has added to the record of JNI calls exactly one `GetByteArrayElements`, one
`GetIntArrayElements`, one `ReleaseByteArrayElements` and one
`ReleaseIntArrayElements`, in this order, so that no acquisition of either
buffer is outstanding; it returns whenever the accesses of the loop stay inside
the buffers, and otherwise the loop faults with an access outside a buffer. -/
theorem C11_scoped_buffer_access (width height : Int) (env : JniEnv) :
    rgbaToPackedArgb width height env =
      Except.map
        (fun s => ReleaseIntArrayElements
          (ReleaseByteArrayElements (GetIntArrayElements (GetByteArrayElements env).2).2
            s.inputPtr 0) s.outputPtr 0)
        (packLoop width height (pixelCount width height) (initialLocals env)) ∧
    (∀ env', rgbaToPackedArgb width height env = .ok env' →
      env'.calls = env.calls ++ [.GetByteArrayElements, .GetIntArrayElements,
        .ReleaseByteArrayElements 0, .ReleaseIntArrayElements 0] ∧
      outstandingInput env'.calls = outstandingInput env.calls ∧
      outstandingOutput env'.calls = outstandingOutput env.calls) ∧
    (4 * pixelCount width height ≤ env.input.length ∧
        pixelCount width height ≤ env.output.length ∧
        4 * pixelCount width height ≤ 2147483648 →
      ∃ env', rgbaToPackedArgb width height env = .ok env') ∧
    (¬ (4 * pixelCount width height ≤ env.input.length ∧
        pixelCount width height ≤ env.output.length ∧
        4 * pixelCount width height ≤ 2147483648) →
      rgbaToPackedArgb width height env = .error .outOfBounds) := by
  refine ⟨?_, ?_, ?_, ?_⟩
  · unfold rgbaToPackedArgb pixelCount initialLocals
    simp only [GetByteArrayElements, GetIntArrayElements]
    cases packLoop width height (wrap32 (width * height)).toNat
      { inputPtr := env.input, outputPtr := env.output, dataIndex := 0, i := 0 } <;> rfl
  · intro env' he
    rw [rgbaToPackedArgb_eq] at he
    split at he
    · injection he with he
      subst he
      refine ⟨rfl, ?_, ?_⟩
      · simp only [outstandingInput_append]
        simp [callsOfPack, outstandingInput]
      · simp only [outstandingOutput_append]
        simp [callsOfPack, outstandingOutput]
    · exact absurd he (by simp)
  · intro hc
    rw [rgbaToPackedArgb_eq, if_pos hc]
    exact ⟨_, rfl⟩
  · intro hc
    rw [rgbaToPackedArgb_eq, if_neg hc]

/-- C11 at the two-pixel source of the spec's scenario, after an earlier call. -/
theorem C11_scoped_buffer_access_witness :
    ∃ env', rgbaToPackedArgb 2 1
        ⟨[10, 20, 30, 40, -56, -106, 100, -1], [0, 0], callsOfPack⟩ = .ok env' ∧
      env'.calls = callsOfPack ++ [.GetByteArrayElements, .GetIntArrayElements,
        .ReleaseByteArrayElements 0, .ReleaseIntArrayElements 0] ∧
      outstandingInput env'.calls = 0 ∧ outstandingOutput env'.calls = 0 :=
  ⟨_, rfl,
    (C11_scoped_buffer_access 2 1
      ⟨[10, 20, 30, 40, -56, -106, 100, -1], [0, 0], callsOfPack⟩).2.1 _ rfl⟩

/-- C12 as stated fails: the `format` value `-1` does not reach `glReadPixels`
unchanged; the primitive receives `4294967295`. -/
theorem C12_counterexample :
    ∃ call, readPixelsToBuffer 0 0 1 1 (-1) 5121 ⟨some 7, []⟩ = ⟨some 7, [call]⟩ ∧
      call.format = 4294967295 ∧ ((call.format : Nat) : Int) ≠ -1 :=
  ⟨_, rfl, by decide, by decide⟩

/-- C12, amended (readback pass-through): `readPixelsToBuffer` issues exactly one
`glReadPixels` call and does nothing else (the earlier calls and the buffer
binding are as before). The call has `x, y, width, height` as received; `format`
and `type` arrive converted to the unsigned `GLenum`, that is modulo `2^32`:
unchanged when they are not negative, and increased by `2^32` when they are
negative; the pixels argument is the null pointer, which the primitive takes as
offset 0 of the buffer the caller has bound for pixel-transfer output. -/
theorem C12_readback_pass_through (x y width height format type : Int) (gl : GlContext)
    (hf : -2147483648 ≤ format ∧ format < 2147483648)
    (ht : -2147483648 ≤ type ∧ type < 2147483648) :
    ∃ call,
      readPixelsToBuffer x y width height format type gl =
        { pixelPackBuffer := gl.pixelPackBuffer,
          readPixelsCalls := gl.readPixelsCalls ++ [call] } ∧
      call.x = x ∧ call.y = y ∧ call.width = width ∧ call.height = height ∧
      ((call.format : Nat) : Int) = format % 4294967296 ∧
      ((call.type : Nat) : Int) = type % 4294967296 ∧
      (0 ≤ format → ((call.format : Nat) : Int) = format) ∧
      (format < 0 → ((call.format : Nat) : Int) = format + 4294967296) ∧
      (0 ≤ type → ((call.type : Nat) : Int) = type) ∧
      (type < 0 → ((call.type : Nat) : Int) = type + 4294967296) ∧
      call.pixels = 0 ∧
      (∀ buffer, gl.pixelPackBuffer = some buffer →
        call.destination = .packBuffer buffer 0) := by
  refine ⟨_, rfl, rfl, rfl, rfl, rfl, ?_, ?_, ?_, ?_, ?_, ?_, rfl, ?_⟩
  · show ((toGLenum format : Nat) : Int) = _
    unfold toGLenum; omega
  · show ((toGLenum type : Nat) : Int) = _
    unfold toGLenum; omega
  · intro h
    show ((toGLenum format : Nat) : Int) = _
    unfold toGLenum; omega
  · intro h
    show ((toGLenum format : Nat) : Int) = _
    unfold toGLenum; omega
  · intro h
    show ((toGLenum type : Nat) : Int) = _
    unfold toGLenum; omega
  · intro h
    show ((toGLenum type : Nat) : Int) = _
    unfold toGLenum; omega
  · intro buffer hb
    show (match gl.pixelPackBuffer with
      | some buffer => PixelDestination.packBuffer buffer 0
      | none => PixelDestination.clientMemory 0) = _
    rw [hb]

/-- C12, amended, at a read of a 4 x 2 region as `GL_RGBA` (6408) and
`GL_UNSIGNED_BYTE` (5121) with buffer 7 bound, after one earlier call. -/
theorem C12_readback_pass_through_witness :
    ∃ call,
      readPixelsToBuffer 0 0 4 2 6408 5121
          ⟨some 7, [⟨0, 0, 1, 1, 6408, 5121, 0, .packBuffer 7 0⟩]⟩ =
        { pixelPackBuffer := some 7,
          readPixelsCalls := [⟨0, 0, 1, 1, 6408, 5121, 0, .packBuffer 7 0⟩] ++ [call] } ∧
      call.x = 0 ∧ call.y = 0 ∧ call.width = 4 ∧ call.height = 2 ∧
      ((call.format : Nat) : Int) = 6408 % 4294967296 ∧
      ((call.type : Nat) : Int) = 5121 % 4294967296 ∧
      ((0 : Int) ≤ 6408 → ((call.format : Nat) : Int) = 6408) ∧
      ((6408 : Int) < 0 → ((call.format : Nat) : Int) = 6408 + 4294967296) ∧
      ((0 : Int) ≤ 5121 → ((call.type : Nat) : Int) = 5121) ∧
      ((5121 : Int) < 0 → ((call.type : Nat) : Int) = 5121 + 4294967296) ∧
      call.pixels = 0 ∧
      (∀ buffer, (some 7 : Option Nat) = some buffer →
        call.destination = .packBuffer buffer 0) :=
  C12_readback_pass_through 0 0 4 2 6408 5121
    ⟨some 7, [⟨0, 0, 1, 1, 6408, 5121, 0, .packBuffer 7 0⟩]⟩ (by decide) (by decide)

/-- The signed value of the word stored by line 30, for channel values below
256: the sum of the channels in their fields, less `2^32` when alpha has its top
bit set. -/
theorem packArgb_value (r g b a : Nat) (hr : r < 256) (hg : g < 256) (hb : b < 256)
    (ha : a < 256) :
    packArgb r g b a =
      if a < 128 then argbValue r g b a else argbValue r g b a - 4294967296 := by
  have hs : ∀ x k : Nat, x * 2 ^ k < 4294967296 → shl32 x k = x <<< k := by
    intro x k hx
    unfold shl32
    rw [Nat.shiftLeft_eq]
    exact Nat.mod_eq_of_lt hx
  unfold packArgb argbValue
  rw [hs a 24 (by omega), hs r 16 (by omega), hs g 8 (by omega),
    or_channels_eq_add r g b a hr hg hb]
  unfold wrap32
  split <;> omega

/-- C14 (signed value of the stored word): in a call on buffers of the stated
sizes, for every pixel `i`, with `R, G, B, A` the unsigned values of its four
source bytes and `U = A * 2^24 + R * 2^16 + G * 2^8 + B`, the `jint` stored in
destination element `i` is `U` when `A < 128` and `U - 2^32` when `A ≥ 128`; it
is a signed 32-bit value and it is negative exactly when `A ≥ 128`. -/
theorem C14_signed_value (n : Nat) (width height : Int) (env : JniEnv)
    (hwh : width * height = (n : Int)) (hsrc : env.input.length = 4 * n)
    (hdst : env.output.length = n) (hlen : env.input.length < 2147483648) :
    ∃ env', rgbaToPackedArgb width height env = .ok env' ∧
      ∀ i, i < n → ∃ word, env'.output[i]? = some word ∧
        (srcByte env.input (4 * i + 3) < 128 →
          word = argbValue (srcByte env.input (4 * i)) (srcByte env.input (4 * i + 1))
            (srcByte env.input (4 * i + 2)) (srcByte env.input (4 * i + 3))) ∧
        (128 ≤ srcByte env.input (4 * i + 3) →
          word = argbValue (srcByte env.input (4 * i)) (srcByte env.input (4 * i + 1))
            (srcByte env.input (4 * i + 2)) (srcByte env.input (4 * i + 3)) - 4294967296) ∧
        (word < 0 ↔ 128 ≤ srcByte env.input (4 * i + 3)) ∧
        -2147483648 ≤ word ∧ word < 2147483648 := by
  refine ⟨_, rgbaToPackedArgb_fits width height env n hwh (by omega) (by omega) hlen, ?_⟩
  intro i hi
  refine ⟨pixelWord env.input i, ?_, ?_⟩
  · simp only [packedFrom_getElem?]
    rw [if_pos ⟨by omega, by omega, by omega⟩]
  · have lr : srcByte env.input (4 * i) < 256 := toUChar_lt _
    have lg : srcByte env.input (4 * i + 1) < 256 := toUChar_lt _
    have lb : srcByte env.input (4 * i + 2) < 256 := toUChar_lt _
    have la : srcByte env.input (4 * i + 3) < 256 := toUChar_lt _
    rw [pixelWord_eq_srcByte, packArgb_value _ _ _ _ lr lg lb la]
    unfold argbValue
    generalize srcByte env.input (4 * i) = R at *
    generalize srcByte env.input (4 * i + 1) = G at *
    generalize srcByte env.input (4 * i + 2) = B at *
    generalize srcByte env.input (4 * i + 3) = A at *
    split <;> refine ⟨?_, ?_, ?_, ?_, ?_⟩ <;> omega

/-- C14 at the two-pixel source of the spec's scenario (alpha 40 and 255). -/
theorem C14_signed_value_witness :
    ∃ env', rgbaToPackedArgb 2 1 ⟨[10, 20, 30, 40, -56, -106, 100, -1], [0, 0], []⟩ = .ok env' ∧
      ∀ i, i < 2 → ∃ word, env'.output[i]? = some word ∧
        (srcByte [10, 20, 30, 40, -56, -106, 100, -1] (4 * i + 3) < 128 →
          word = argbValue (srcByte [10, 20, 30, 40, -56, -106, 100, -1] (4 * i))
            (srcByte [10, 20, 30, 40, -56, -106, 100, -1] (4 * i + 1))
            (srcByte [10, 20, 30, 40, -56, -106, 100, -1] (4 * i + 2))
            (srcByte [10, 20, 30, 40, -56, -106, 100, -1] (4 * i + 3))) ∧
        (128 ≤ srcByte [10, 20, 30, 40, -56, -106, 100, -1] (4 * i + 3) →
          word = argbValue (srcByte [10, 20, 30, 40, -56, -106, 100, -1] (4 * i))
            (srcByte [10, 20, 30, 40, -56, -106, 100, -1] (4 * i + 1))
            (srcByte [10, 20, 30, 40, -56, -106, 100, -1] (4 * i + 2))
            (srcByte [10, 20, 30, 40, -56, -106, 100, -1] (4 * i + 3)) - 4294967296) ∧
        (word < 0 ↔ 128 ≤ srcByte [10, 20, 30, 40, -56, -106, 100, -1] (4 * i + 3)) ∧
        -2147483648 ≤ word ∧ word < 2147483648 :=
  C14_signed_value 2 2 1 ⟨[10, 20, 30, 40, -56, -106, 100, -1], [0, 0], []⟩
    (by decide) (by decide) (by decide) (by decide)

/-- Masking a signed integer with `0xFF` keeps its value modulo 256. -/
theorem land_255 (m : Int) : Int.land m 255 = m % 256 := by
  cases m with
  | ofNat a =>
    show ((a &&& 255 : Nat) : Int) = _
    rw [show (255 : Nat) = 2 ^ 8 - 1 by rfl, Nat.and_pow_two_sub_one_eq_mod, Int.ofNat_eq_coe]
    omega
  | negSucc a =>
    show ((Nat.ldiff 255 a : Nat) : Int) = _
    have h : Nat.ldiff 255 a = 2 ^ 8 - (a % 2 ^ 8 + 1) := by
      apply Nat.eq_of_testBit_eq
      intro i
      rw [Nat.testBit_ldiff, Nat.testBit_two_pow_sub_succ (Nat.mod_lt _ (by decide)),
        Nat.testBit_mod_two_pow, show (255 : Nat) = 2 ^ 8 - 1 by rfl,
        Nat.testBit_two_pow_sub_one]
      by_cases hi : i < 8 <;> simp [hi]
    rw [h, Int.negSucc_eq]
    omega

/-- The arithmetic right shift of a signed integer is the floor division by the
power of two. -/
theorem shiftRight_div (w : Int) (k : Nat) : Int.shiftRight w k = w / ((2 ^ k : Nat) : Int) :=
  Int.shiftRight_eq_div_pow w k

/-- The four channels read back from the stored word of pixel `k` with the
arithmetic shift and the mask `0xFF`. -/
theorem pixelWord_channels (src : List Int) (k : Nat) :
    Int.land (Int.shiftRight (pixelWord src k) 16) 255 = (srcByte src (4 * k) : Int) ∧
    Int.land (Int.shiftRight (pixelWord src k) 8) 255 = (srcByte src (4 * k + 1) : Int) ∧
    Int.land (pixelWord src k) 255 = (srcByte src (4 * k + 2) : Int) ∧
    Int.land (Int.shiftRight (pixelWord src k) 24) 255 = (srcByte src (4 * k + 3) : Int) := by
  have lr : srcByte src (4 * k) < 256 := toUChar_lt _
  have lg : srcByte src (4 * k + 1) < 256 := toUChar_lt _
  have lb : srcByte src (4 * k + 2) < 256 := toUChar_lt _
  have la : srcByte src (4 * k + 3) < 256 := toUChar_lt _
  rw [pixelWord_eq_srcByte, packArgb_value _ _ _ _ lr lg lb la]
  simp only [land_255, shiftRight_div]
  unfold argbValue
  generalize srcByte src (4 * k) = R at *
  generalize srcByte src (4 * k + 1) = G at *
  generalize srcByte src (4 * k + 2) = B at *
  generalize srcByte src (4 * k + 3) = A at *
  have p16 : (((2 ^ 16 : Nat) : Int)) = 65536 := by norm_num
  have p8 : (((2 ^ 8 : Nat) : Int)) = 256 := by norm_num
  have p24 : (((2 ^ 24 : Nat) : Int)) = 16777216 := by norm_num
  rw [p16, p8, p24]
  split <;> refine ⟨?_, ?_, ?_, ?_⟩ <;> omega

/-- Two `jbyte` values with the same unsigned value are equal. -/
theorem toUChar_inj (x y : Int) (hx : -128 ≤ x ∧ x ≤ 127) (hy : -128 ≤ y ∧ y ≤ 127)
    (h : toUChar x = toUChar y) : x = y := by
  unfold toUChar at h
  omega

/-- Equal stored words come from equal unsigned channel values. -/
theorem pixelWord_inj (s1 s2 : List Int) (k : Nat) (h : pixelWord s1 k = pixelWord s2 k) :
    ∀ c, c < 4 → srcByte s1 (4 * k + c) = srcByte s2 (4 * k + c) := by
  have c1 := pixelWord_channels s1 k
  have c2 := pixelWord_channels s2 k
  rw [h] at c1
  intro c hc
  have hc4 : c = 0 ∨ c = 1 ∨ c = 2 ∨ c = 3 := by omega
  rcases hc4 with rfl | rfl | rfl | rfl
  · exact Int.ofNat_inj.mp (c1.1.symm.trans c2.1)
  · exact Int.ofNat_inj.mp (c1.2.1.symm.trans c2.2.1)
  · exact Int.ofNat_inj.mp (c1.2.2.1.symm.trans c2.2.2.1)
  · exact Int.ofNat_inj.mp (c1.2.2.2.symm.trans c2.2.2.2)

/-- C15 (the packing is lossless): in a call on a source of `4 * n` bytes and a
destination of `n` words, the unsigned source bytes of every pixel `i` are read
back from the stored word by `R = (word >> 16) & 0xFF`, `G = (word >> 8) & 0xFF`,
`B = word & 0xFF`, `A = (word >> 24) & 0xFF` (arithmetic shift of the signed
word); and a second source of `4 * n` bytes that gives the same destination is
the same source, both being sequences of `jbyte` values (`-128 .. 127`). -/
theorem C15_lossless (n : Nat) (width height : Int) (env : JniEnv)
    (hwh : width * height = (n : Int)) (hsrc : env.input.length = 4 * n)
    (hdst : env.output.length = n) (hlen : env.input.length < 2147483648) :
    ∃ env', rgbaToPackedArgb width height env = .ok env' ∧
      (∀ i, i < n → ∃ word, env'.output[i]? = some word ∧
        Int.land (Int.shiftRight word 16) 255 = (srcByte env.input (4 * i) : Int) ∧
        Int.land (Int.shiftRight word 8) 255 = (srcByte env.input (4 * i + 1) : Int) ∧
        Int.land word 255 = (srcByte env.input (4 * i + 2) : Int) ∧
        Int.land (Int.shiftRight word 24) 255 = (srcByte env.input (4 * i + 3) : Int)) ∧
      (∀ env2 env2', env2.input.length = 4 * n → env2.output.length = n →
        (∀ x ∈ env.input, -128 ≤ x ∧ x ≤ 127) → (∀ x ∈ env2.input, -128 ≤ x ∧ x ≤ 127) →
        rgbaToPackedArgb width height env2 = .ok env2' → env2'.output = env'.output →
        env2.input = env.input) := by
  refine ⟨_, rgbaToPackedArgb_fits width height env n hwh (by omega) (by omega) hlen, ?_, ?_⟩
  · intro i hi
    refine ⟨pixelWord env.input i, ?_, pixelWord_channels env.input i⟩
    simp only [packedFrom_getElem?]
    rw [if_pos ⟨by omega, by omega, by omega⟩]
  · intro env2 env2' h2src h2dst hr1 hr2 hrun hout
    rw [rgbaToPackedArgb_fits width height env2 n hwh (by omega) (by omega) (by omega)] at hrun
    injection hrun with hrun
    subst hrun
    simp only at hout
    have hw : ∀ i, i < n → pixelWord env2.input i = pixelWord env.input i := by
      intro i hi
      have := congrArg (fun l : List Int => l[i]?) hout
      simp only [packedFrom_getElem?] at this
      rw [if_pos ⟨by omega, by omega, by omega⟩, if_pos ⟨by omega, by omega, by omega⟩] at this
      exact Option.some.inj this
    apply List.ext_getElem (by omega)
    intro j h1 h2
    have hb := pixelWord_inj _ _ (j / 4) (hw (j / 4) (by omega)) (j % 4) (by omega)
    rw [show 4 * (j / 4) + j % 4 = j by omega] at hb
    unfold srcByte at hb
    rw [List.getD_eq_getElem _ _ h1, List.getD_eq_getElem _ _ h2] at hb
    exact toUChar_inj _ _ (hr2 _ (List.getElem_mem h1)) (hr1 _ (List.getElem_mem h2)) hb

/-- C15 at the two-pixel source of the spec's scenario. -/
theorem C15_lossless_witness :
    ∃ env', rgbaToPackedArgb 2 1 ⟨[10, 20, 30, 40, -56, -106, 100, -1], [0, 0], []⟩ = .ok env' ∧
      (∀ i, i < 2 → ∃ word, env'.output[i]? = some word ∧
        Int.land (Int.shiftRight word 16) 255 =
          (srcByte [10, 20, 30, 40, -56, -106, 100, -1] (4 * i) : Int) ∧
        Int.land (Int.shiftRight word 8) 255 =
          (srcByte [10, 20, 30, 40, -56, -106, 100, -1] (4 * i + 1) : Int) ∧
        Int.land word 255 = (srcByte [10, 20, 30, 40, -56, -106, 100, -1] (4 * i + 2) : Int) ∧
        Int.land (Int.shiftRight word 24) 255 =
          (srcByte [10, 20, 30, 40, -56, -106, 100, -1] (4 * i + 3) : Int)) ∧
      (∀ env2 env2', env2.input.length = 4 * 2 → env2.output.length = 2 →
        (∀ x ∈ [10, 20, 30, 40, -56, -106, 100, (-1 : Int)], -128 ≤ x ∧ x ≤ 127) →
        (∀ x ∈ env2.input, -128 ≤ x ∧ x ≤ 127) →
        rgbaToPackedArgb 2 1 env2 = .ok env2' → env2'.output = env'.output →
        env2.input = [10, 20, 30, 40, -56, -106, 100, -1]) :=
  C15_lossless 2 2 1 ⟨[10, 20, 30, 40, -56, -106, 100, -1], [0, 0], []⟩
    (by decide) (by decide) (by decide) (by decide)

/-- A loop whose 32-bit bound is zero or negative makes no iteration, whatever
fuel it is given. -/
theorem packLoop_of_nonpos (w h : Int) (hn : wrap32 (w * h) ≤ 0) (fuel : Nat) (s : Locals)
    (hs : s.i = 0) : packLoop w h fuel s = .ok s := by
  cases fuel <;> rw [packLoop, if_neg (by omega)]

/-- C16 as stated fails: `width = -3` and `height = 2^30` are `jint` values of
which exactly one is negative, but their 32-bit product is `2^30 > 0`, and on
empty buffers the loop reads outside the source buffer. -/
theorem C16_counterexample :
    ((-3 : Int) < 0 ∧ (0 : Int) ≤ 1073741824) ∧
    (-2147483648 ≤ (-3 : Int) ∧ (1073741824 : Int) < 2147483648) ∧
    wrap32 (-3 * 1073741824) = 1073741824 ∧
    rgbaToPackedArgb (-3) 1073741824 ⟨[], [], []⟩ = .error .outOfBounds := by
  refine ⟨by decide, by decide, by decide, ?_⟩
  have e : pixelCount (-3) 1073741824 = 1073741824 := by decide
  rw [rgbaToPackedArgb_eq, e, if_neg (by decide)]

/-- C16, amended: negative dimensions are not rejected. For every width and
height whose 32-bit product is zero or negative, which is the case whenever
exactly one of them is negative and the product is not below `-2^31`, and for
buffers of any length, the loop makes no iteration (it ends at once with the
locals it started with, so no element is read or written) and the call returns
normally with source and destination unchanged. -/
theorem C16_negative_dimensions (width height : Int) (env : JniEnv)
    (hp : wrap32 (width * height) ≤ 0 ∨
      (((width < 0 ∧ 0 ≤ height) ∨ (0 ≤ width ∧ height < 0)) ∧
        -2147483648 ≤ width * height)) :
    wrap32 (width * height) ≤ 0 ∧ pixelCount width height = 0 ∧
    (∀ fuel, packLoop width height fuel (initialLocals env) = .ok (initialLocals env)) ∧
    rgbaToPackedArgb width height env =
      .ok { input := env.input, output := env.output, calls := env.calls ++ callsOfPack } := by
  have hw : wrap32 (width * height) ≤ 0 := by
    rcases hp with hp | ⟨hs, hlo⟩
    · exact hp
    · have hle : width * height ≤ 0 := by
        rcases hs with ⟨h1, h2⟩ | ⟨h1, h2⟩
        · exact mul_nonpos_of_nonpos_of_nonneg (le_of_lt h1) h2
        · exact mul_nonpos_of_nonneg_of_nonpos h1 (le_of_lt h2)
      rw [wrap32_id _ hlo (by omega)]
      exact hle
  refine ⟨hw, ?_, ?_, rgbaToPackedArgb_of_nonpos width height env hw⟩
  · unfold pixelCount; omega
  · intro fuel
    exact packLoop_of_nonpos width height hw fuel _ rfl

/-- C16, amended, at `width = -2`, `height = 3` on buffers of three bytes and
one word. -/
theorem C16_negative_dimensions_witness :
    wrap32 (-2 * 3) ≤ 0 ∧ pixelCount (-2) 3 = 0 ∧
    (∀ fuel, packLoop (-2) 3 fuel (initialLocals ⟨[1, 2, 3], [9], []⟩) =
      .ok (initialLocals ⟨[1, 2, 3], [9], []⟩)) ∧
    rgbaToPackedArgb (-2) 3 ⟨[1, 2, 3], [9], []⟩ =
      .ok { input := [1, 2, 3], output := [9], calls := [] ++ callsOfPack } :=
  C16_negative_dimensions (-2) 3 ⟨[1, 2, 3], [9], []⟩
    (Or.inr ⟨Or.inl ⟨by decide, by decide⟩, by decide⟩)

/-- With fewer iterations of fuel than remain before the bound, the loop on
buffers that hold all `n` pixels stops for lack of fuel. -/
theorem packLoop_short (w h : Int) (n : Nat) (hn : wrap32 (w * h) = (n : Int))
    (inp : List Int) (h1 : 4 * n ≤ inp.length) (h3 : 4 * n < 2147483648) :
    ∀ (fuel k : Nat) (out : List Int), k + fuel < n → n ≤ out.length →
      packLoop w h fuel { inputPtr := inp, outputPtr := out, dataIndex := ((4 * k : Nat) : Int),
                          i := (k : Int) } = .error .outOfFuel := by
  intro fuel
  induction fuel with
  | zero =>
    intro k out hk _
    rw [packLoop, hn, if_pos (by simp only; omega)]
  | succ f ih =>
    intro k out hk h2
    rw [packLoop, hn, if_pos (by simp only; omega), loopBody_at inp out k (by omega),
      if_pos ⟨by omega, by omega⟩]
    simp only [bind, Except.bind]
    have e1 : wrap32 (((4 * k + 4 : Nat) : Int)) = ((4 * (k + 1) : Nat) : Int) := by
      rw [wrap32_id] <;> omega
    have e2 : wrap32 ((k : Int) + 1) = ((k + 1 : Nat) : Int) := by
      rw [wrap32_id] <;> omega
    rw [e1, e2]
    exact ih (k + 1) _ (by omega) (by rw [List.length_set]; omega)

/-- The loop of a call on buffers that hold all pixels, with any fuel that
covers its iterations. -/
theorem packLoop_fits (w h : Int) (env : JniEnv) (fuel : Nat)
    (hf : pixelCount w h ≤ fuel) (hsrc : 4 * pixelCount w h ≤ env.input.length)
    (hdst : pixelCount w h ≤ env.output.length) (hlen : env.input.length < 2147483648) :
    packLoop w h fuel (initialLocals env) =
      .ok { inputPtr := env.input,
            outputPtr := packedFrom env.input 0 (pixelCount w h) env.output,
            dataIndex := ((4 * pixelCount w h : Nat) : Int), i := (pixelCount w h : Int) } := by
  by_cases hn : wrap32 (w * h) ≤ 0
  · have e : pixelCount w h = 0 := by unfold pixelCount; omega
    rw [packLoop_of_nonpos w h hn fuel _ rfl, e]
    rfl
  · have e : wrap32 (w * h) = ((pixelCount w h : Nat) : Int) := by
      unfold pixelCount; omega
    have key := packLoop_from w h _ e env.input (pixelCount w h) 0 fuel env.output
      (by omega) hf (by omega) (by omega) (by omega)
    have e0 : wrap32 (((4 * 0 : Nat) : Int)) = 0 := by decide
    have e1 : wrap32 (((4 * pixelCount w h : Nat) : Int)) = ((4 * pixelCount w h : Nat) : Int) :=
      wrap32_id _ (by omega) (by omega)
    rw [if_pos ⟨hsrc, hdst, by omega⟩, e0, e1] at key
    exact key

/-- C17 (bounded loop): the loop of a call makes `pixelCount width height`
iterations, which is `max(0, width * height)` for the 32-bit product. Whatever
the buffers, the loop has stopped within that many iterations (it never needs
more fuel). When the buffers hold all pixels (source array of at least
`4 * pixelCount` bytes, destination of at least `pixelCount` words): with any
fuel of at least `pixelCount` iterations the loop ends normally in the state
reached by exactly `pixelCount` iterations, and with less fuel it has not ended;
at the start of iteration `k` the locals are `i = k` and `dataIndex = 4 * k`,
the loop condition holds exactly while `k < pixelCount`; iteration `k` reads the
source at offsets `4k, 4k+1, 4k+2, 4k+3` and leaves `dataIndex = 4k + 4`; and
the loop ends with `i = pixelCount` and `dataIndex = 4 * pixelCount`. -/
theorem C17_bounded_loop (width height : Int) (env : JniEnv) :
    (pixelCount width height : Int) = max 0 (wrap32 (width * height)) ∧
    packLoop width height (pixelCount width height) (initialLocals env) ≠ .error .outOfFuel ∧
    (4 * pixelCount width height ≤ env.input.length →
      pixelCount width height ≤ env.output.length → env.input.length < 2147483648 →
      (∀ fuel, pixelCount width height ≤ fuel →
        packLoop width height fuel (initialLocals env) =
          iterations (pixelCount width height) (initialLocals env)) ∧
      (∀ fuel, fuel < pixelCount width height →
        packLoop width height fuel (initialLocals env) = .error .outOfFuel) ∧
      (∀ k, k ≤ pixelCount width height →
        ∃ s, iterations k (initialLocals env) = .ok s ∧
          s.i = (k : Int) ∧ s.dataIndex = 4 * (k : Int) ∧
          (s.i < wrap32 (width * height) ↔ k < pixelCount width height)) ∧
      (∀ k, k < pixelCount width height →
        ∃ s, iterations k (initialLocals env) = .ok s ∧
          (∀ c : Nat, c < 4 →
            load s.inputPtr (s.dataIndex + (c : Int)) = .ok (env.input.getD (4 * k + c) 0)) ∧
          loopBody s = .ok { s with dataIndex := 4 * (k : Int) + 4,
                                    outputPtr := s.outputPtr.set k (pixelWord env.input k) }) ∧
      ∃ s, packLoop width height (pixelCount width height) (initialLocals env) = .ok s ∧
        s.i = (pixelCount width height : Int) ∧
        s.dataIndex = 4 * (pixelCount width height : Int)) := by
  have hr := wrap32_range (width * height)
  have hmax : (pixelCount width height : Int) = max 0 (wrap32 (width * height)) := by
    unfold pixelCount; omega
  refine ⟨hmax, ?_, ?_⟩
  · rw [packLoop_initial]
    split <;> simp
  · intro hsrc hdst hlen
    have hit : ∀ k, k ≤ pixelCount width height →
        iterations k (initialLocals env) =
          .ok { inputPtr := env.input, outputPtr := packedFrom env.input 0 k env.output,
                dataIndex := ((4 * (0 + k) : Nat) : Int), i := ((0 + k : Nat) : Int) } := by
      intro k hk
      exact iterations_from env.input k 0 env.output (by omega) (by omega) (by omega)
    refine ⟨?_, ?_, ?_, ?_, ?_⟩
    · intro fuel hf
      rw [packLoop_fits width height env fuel hf hsrc hdst hlen, hit _ (Nat.le_refl _)]
      simp only [Nat.zero_add]
    · intro fuel hf
      by_cases hn : wrap32 (width * height) ≤ 0
      · have e : pixelCount width height = 0 := by unfold pixelCount; omega
        omega
      · have e : wrap32 (width * height) = ((pixelCount width height : Nat) : Int) := by
          unfold pixelCount; omega
        exact packLoop_short width height _ e env.input hsrc (by omega) fuel 0 env.output
          (by omega) hdst
    · intro k hk
      refine ⟨_, hit k hk, ?_, ?_, ?_⟩
      · simp only [Nat.zero_add]
      · simp only [Nat.zero_add]; omega
      · simp only [Nat.zero_add]; omega
    · intro k hk
      refine ⟨_, hit k (by omega), ?_, ?_⟩
      · intro c hc
        simp only [Nat.zero_add]
        have e : ((4 * k : Nat) : Int) + (c : Int) = ((4 * k + c : Nat) : Int) := by omega
        rw [e, load_nat _ _ (by omega)]
      · simp only [Nat.zero_add]
        rw [loopBody_at env.input _ k (by omega),
          if_pos ⟨by omega, by rw [packedFrom_length]; omega⟩, wrap32_id _ (by omega) (by omega)]
        congr 2
    · refine ⟨_, packLoop_fits width height env _ (Nat.le_refl _) hsrc hdst hlen, rfl, ?_⟩
      simp only
      omega

/-- C17 at the two-pixel source of the spec's scenario: two iterations, eight
bytes consumed. -/
theorem C17_bounded_loop_witness :
    (∀ fuel, pixelCount 2 1 ≤ fuel →
      packLoop 2 1 fuel (initialLocals ⟨[10, 20, 30, 40, -56, -106, 100, -1], [0, 0], []⟩) =
        iterations (pixelCount 2 1)
          (initialLocals ⟨[10, 20, 30, 40, -56, -106, 100, -1], [0, 0], []⟩)) ∧
    (∀ fuel, fuel < pixelCount 2 1 →
      packLoop 2 1 fuel (initialLocals ⟨[10, 20, 30, 40, -56, -106, 100, -1], [0, 0], []⟩) =
        .error .outOfFuel) ∧
    (∀ k, k ≤ pixelCount 2 1 →
      ∃ s, iterations k (initialLocals ⟨[10, 20, 30, 40, -56, -106, 100, -1], [0, 0], []⟩) =
          .ok s ∧
        s.i = (k : Int) ∧ s.dataIndex = 4 * (k : Int) ∧
        (s.i < wrap32 (2 * 1) ↔ k < pixelCount 2 1)) ∧
    (∀ k, k < pixelCount 2 1 →
      ∃ s, iterations k (initialLocals ⟨[10, 20, 30, 40, -56, -106, 100, -1], [0, 0], []⟩) =
          .ok s ∧
        (∀ c : Nat, c < 4 →
          load s.inputPtr (s.dataIndex + (c : Int)) =
            .ok (([10, 20, 30, 40, -56, -106, 100, -1] : List Int).getD (4 * k + c) 0)) ∧
        loopBody s = .ok { s with dataIndex := 4 * (k : Int) + 4,
                                  outputPtr := s.outputPtr.set k
                                    (pixelWord [10, 20, 30, 40, -56, -106, 100, -1] k) }) ∧
    ∃ s, packLoop 2 1 (pixelCount 2 1)
          (initialLocals ⟨[10, 20, 30, 40, -56, -106, 100, -1], [0, 0], []⟩) = .ok s ∧
      s.i = (pixelCount 2 1 : Int) ∧ s.dataIndex = 4 * (pixelCount 2 1 : Int) :=
  (C17_bounded_loop 2 1 ⟨[10, 20, 30, 40, -56, -106, 100, -1], [0, 0], []⟩).2.2
    (by decide) (by decide) (by decide)

